import Mathlib

/-!
# Verification of the SCOWL custom-list creator (`create.py`)

A shallow embedding of the parameter normalization and output-packaging
pipeline of `create.py`: the request-parameter resolution (`/create` route,
lines 301–357), the legacy `max_variant` reconciliation, the dictionary
naming (`dict_name`), the provenance header (`build_header`/`dump_parms`),
the diacritic post-processing, and the three wordlist output encodings
(inline, tar.gz members, zip members).

External collaborators (the lexical database `libscowl`, the dictionary
builder subprocesses, the request transport and the text encoders) are
modelled as function parameters; data the program reads from outside the
repository at process start (`scowl/Copyright`, `scowl/README.md`, the git
revision) is modelled by placeholder constants, marked as such.
-/

namespace Create

/-- `SPELLING_MAP` from `create.py`: region code → libscowl single-letter code. -/
def SPELLING_MAP : List (String × String) :=
  [("US", "A"), ("GBs", "B"), ("GBz", "Z"), ("CA", "C"), ("AU", "D")]

/-- `LEGACY_VARIANT_MAP` from `create.py` line 19: legacy `max_variant` → `variant_level`. -/
def LEGACY_VARIANT_MAP : List (Int × Int) := [(0, 1), (1, 4), (2, 6), (3, 8)]

/-- Keys of `PRESETS` in `create.py` (used only by the form-rendering branch). -/
def PRESET_KEYS : List String :=
  ["en_US", "en_GB-ise", "en_GB-ize", "en_CA", "en_AU",
   "en_US-large", "en_GB-large", "en_CA-large", "en_AU-large"]

/-- `SIZES` from `create.py`: display text per known size tier. -/
def SIZES : List (Int × String) :=
  [(35, "35 (small)"), (50, "50 (medium)"), (60, "60 (default)"),
   (70, "70 (large)"), (80, "80 (huge)"), (85, "85 (huge+)")]

/-- `VARIANT_LEVELS` from `create.py`: display text per variant level. -/
def VARIANT_LEVELS : List (Int × String) :=
  [(0, "0 (none)"), (1, "1 *default*"), (2, "2 (equal)"), (3, "3 (disagreement)"),
   (4, "4 *common*"), (5, "5 (variant)"), (6, "6 *acceptable*"), (7, "7 (uncommon)"),
   (8, "8 (archaic)"), (9, "9 (invalid)")]

/-- Keys of `SPECIALS` from `create.py`. -/
def SPECIALS : List (String × String) :=
  [("hacker", "Hacker (for example grepped)"), ("roman-numerals", "Roman Numerals")]

/-- The value of one decimal digit character. -/
def digitVal? (c : Char) : Option Nat :=
  if c.isDigit then some (c.toNat - '0'.toNat) else none

/-- Accumulate decimal digits; `none` as soon as a non-digit appears. -/
def parseDigitsAux (acc : Nat) : List Char → Option Nat
  | [] => some acc
  | c :: cs =>
    match digitVal? c with
    | some d => parseDigitsAux (10 * acc + d) cs
    | none => none

/-- A non-empty all-digit character list, as a number. -/
def parseDigits : List Char → Option Nat
  | [] => none
  | l => parseDigitsAux 0 l

/-- Model of Python `int(s)` on request-parameter strings: an optional sign
followed by at least one decimal digit. (Python additionally strips
surrounding whitespace and permits underscore separators; those lenient
forms are not modelled — every claim below quantifies over the parsed
integer value, not over a particular string syntax.) -/
def parseInt (s : String) : Option Int :=
  match s.data with
  | '-' :: rest => (parseDigits rest).map fun n => -(n : Int)
  | '+' :: rest => (parseDigits rest).map fun n => (n : Int)
  | l => (parseDigits l).map fun n => (n : Int)

/-- The canonical parameter record `parms` assembled by `create` (lines 314–357). -/
structure Parms where
  max_size : Int
  spelling : List String
  variant_level : Int
  diacritic : String
  special : List String
  deriving DecidableEq, Repr

/-- The raw request parameters consumed by the `/create` route.
`none` stands for an absent query parameter; repeatable parameters
(`spelling`, `special`) are the list `request.args.getlist` returns. -/
structure Request where
  download : Option String := none
  defaults : Option String := none
  max_size : Option String := none
  spelling : List String := []
  variant_level : Option String := none
  max_variant : Option String := none
  diacritic : Option String := none
  special : List String := []
  encoding : Option String := none
  format : Option String := none
  deriving Repr

/-- Lines 317–322: `max_size` defaults to 60, must parse as an integer and
lie in 0–99. -/
def resolveMaxSize (arg : Option String) : Except String Int :=
  match arg with
  | none =>
    if (60 : Int) < 0 ∨ (60 : Int) > 99 then .error "max_size must be 0-99" else .ok 60
  | some s =>
    match parseInt s with
    | none => .error "max_size must be an integer"
    | some n => if n < 0 ∨ n > 99 then .error "max_size must be 0-99" else .ok n

/-- The first element of `l` failing `pred` yields `.error (errPfx ++ elem)`,
mirroring Python's `for s in ...: if s not in ...: abort(...)` loops. -/
def checkAll (pred : String → Bool) (errPfx : String) : List String → Except String Unit
  | [] => .ok ()
  | s :: rest => if pred s then checkAll pred errPfx rest else .error (errPfx ++ s)

/-- Lines 324–327: empty `spelling` defaults to `['US']`; every element must
be a key of `SPELLING_MAP`. -/
def resolveSpelling (l : List String) : Except String (List String) :=
  let sp := if l = [] then ["US"] else l
  match checkAll (fun s => (SPELLING_MAP.lookup s).isSome) "Invalid spelling: " sp with
  | .ok _ => .ok sp
  | .error e => .error e

/-- Lines 329–348: `variant_level` wins when present (parsed, range 0–9);
else legacy `max_variant` (parsed, must be a key of `LEGACY_VARIANT_MAP`,
mapped through it); else default 1. -/
def resolveVariantLevel (variant_level max_variant : Option String) : Except String Int :=
  match variant_level with
  | some v =>
    match parseInt v with
    | none => .error "variant_level must be an integer"
    | some n => if n < 0 ∨ n > 9 then .error "variant_level must be 0-9" else .ok n
  | none =>
    match max_variant with
    | some s =>
      match parseInt s with
      | none => .error "max_variant must be an integer"
      | some k =>
        match LEGACY_VARIANT_MAP.lookup k with
        | some m => .ok m
        | none => .error "max_variant must be 0-3"
    | none => .ok 1

/-- Lines 350–352: `diacritic` defaults to `strip` and must be one of the
three known policies. -/
def resolveDiacritic (arg : Option String) : Except String String :=
  let d := arg.getD "strip"
  if d = "strip" ∨ d = "keep" ∨ d = "both" then .ok d else .error "Invalid diacritic option"

/-- Lines 354–357: every `special` value must be a key of `SPECIALS`. -/
def resolveSpecial (l : List String) : Except String (List String) :=
  match checkAll (fun s => (SPECIALS.lookup s).isSome) "Invalid special: " l with
  | .ok _ => .ok l
  | .error e => .error e

/-- Lines 314–357: the shared parameter validation of `create`, in source
order (`max_size`, `spelling`, variant resolution, `diacritic`, `special`),
stopping at the first failing field. -/
def resolveParms (req : Request) : Except String Parms := do
  let ms ← resolveMaxSize req.max_size
  let sp ← resolveSpelling req.spelling
  let vl ← resolveVariantLevel req.variant_level req.max_variant
  let dc ← resolveDiacritic req.diacritic
  let spc ← resolveSpecial req.special
  pure ⟨ms, sp, vl, dc, spc⟩

/-- Lines 400–402: wordlist-mode `encoding`, defaulting to `utf-8`. -/
def resolveEncoding (arg : Option String) : Except String String :=
  let e := arg.getD "utf-8"
  if e = "utf-8" ∨ e = "iso-8859-1" then .ok e else .error "Invalid encoding"

/-- Lines 404–406: wordlist-mode `format`, defaulting to `inline`. -/
def resolveFormat (arg : Option String) : Except String String :=
  let f := arg.getD "inline"
  if f = "inline" ∨ f = "tar.gz" ∨ f = "zip" then .ok f else .error "Invalid format"

/-- `dict_name` lines 112–121: normalize `GBs`/`GBz` to `GB`. -/
def normalizeSpelling (s : String) : String :=
  if s = "GBs" ∨ s = "GBz" then "GB" else s

/-- `dict_name` lines 112–121: build the set of normalized regions (here the
deduplicated list, standing for the Python `set`); a single remaining region
`R` yields `en_R-custom`, anything else the generic `en-custom`. -/
def dict_name (spellings_raw : List String) : String :=
  let normalized := (spellings_raw.map normalizeSpelling).dedup
  if normalized.length = 1 then "en_" ++ normalized.head! ++ "-custom" else "en-custom"

/-- Python `sep.join(l)`: the elements of `l` interleaved with `sep`. -/
def pyJoin (sep : String) : List String → String
  | [] => ""
  | [w] => w
  | w :: rest => w ++ sep ++ pyJoin sep rest

/-- Modelled from the spec: the source revision tag (§3 "a source revision
tag"), obtained in `create.py` from `git log` in the `scowl` checkout at
process start; the checkout is not part of this repository, so a fixed
placeholder stands for its value. -/
def GIT_VER : String := "2024-01-01 [abc1234]"

/-- Modelled from the spec: the base copyright/license block (§4.3 item 4),
read at process start from `scowl/Copyright`, a file outside this
repository. -/
def COPYRIGHT_BASE : String := "SCOWL copyright and license notice (modelled)"

/-- Modelled from the spec: the AU-specific legal clause (§4.3 item 5,
"an additional region-specific legal clause when AU spelling is selected"),
the `AU` section of `scowl/Copyright`, a file outside this repository. -/
def COPYRIGHT_AU : String := "Australian regional legal clause (modelled)"

/-- Modelled from the spec: the large-list legal clause (§4.3 item 6,
"a large-list legal clause when `max_size` exceeds a fixed threshold"),
the `UKACD` section of `scowl/Copyright`, a file outside this repository. -/
def COPYRIGHT_UKACD : String := "UKACD large-list legal clause (modelled)"

/-- Modelled from the spec: the secondary README "documenting the lexical
source under its own name" (§4.4), read at process start from
`scowl/README.md`, a file outside this repository. -/
def README_SCOWL : String := "SCOWL readme (modelled)"

/-- `dump_parms` lines 151–184: the human-readable parameter dump, one
labelled line per field, each line ending in a newline and starting with
`pfx`. -/
def dump_parms (p : Parms) (pfx : String) : String :=
  let sizeStr := (SIZES.lookup p.max_size).getD (toString p.max_size)
  let has_gbs := "GBs" ∈ p.spelling
  let has_gbz := "GBz" ∈ p.spelling
  let spell_parts :=
    (if "US" ∈ p.spelling then ["US"] else [])
    ++ (if has_gbs ∧ has_gbz then ["GB"]
        else if has_gbs then ["GB(-ise)"]
        else if has_gbz then ["GB(-ize/oed)"]
        else [])
    ++ (if "CA" ∈ p.spelling then ["CA"] else [])
    ++ (if "AU" ∈ p.spelling then ["AU"] else [])
  let vlStr := (VARIANT_LEVELS.lookup p.variant_level).getD (toString p.variant_level)
  pfx ++ "Size: " ++ sizeStr ++ "\n"
    ++ pfx ++ "Spelling: " ++ (if spell_parts = [] then "<none>" else pyJoin " " spell_parts)
    ++ "\n"
    ++ pfx ++ "Variant Level: " ++ vlStr ++ "\n"
    ++ pfx ++ "Special: " ++ (if p.special = [] then "<none>" else pyJoin " " p.special) ++ "\n"
    ++ pfx ++ "Diacritics: " ++ p.diacritic ++ "\n"

/-- The fixed first lines of the parameter block (`build_header` lines 96–99). -/
def headerIntro : String :=
  "Custom wordlist generated from https://app.aspell.net/create using SCOWL\nwith parameters:\n"

/-- Python `s.rstrip('\n')` on the character list: drop trailing newlines. -/
def rstripAuxNL (l : List Char) : List Char :=
  (l.reverse.dropWhile (fun c => c == '\n')).reverse

/-- Python `s.rstrip('\n')`. -/
def rstripNL (s : String) : String := ⟨rstripAuxNL s.data⟩

/-- The parameter-dump block of the header (lines 96–100). -/
def params_block (p : Parms) : String := rstripNL (headerIntro ++ dump_parms p "  ")

/-- `build_header` lines 95–109 as the list of text blocks it joins: the
parameter block, the project URL, the revision line and the base copyright,
then conditionally the AU clause and the large-list (UKACD) clause. -/
def build_header_parts (p : Parms) : List String :=
  [params_block p,
   "https://wordlist.aspell.net",
   "Using Git Commit From: " ++ GIT_VER,
   COPYRIGHT_BASE]
  ++ (if "AU" ∈ p.spelling then [COPYRIGHT_AU] else [])
  ++ (if p.max_size > 80 then [COPYRIGHT_UKACD] else [])

/-- `build_header` line 109: blocks joined by a blank line, with a trailing
blank line. -/
def build_header (p : Parms) : String :=
  pyJoin "\n\n" (build_header_parts p) ++ "\n\n"

/-- Lines 369–373: the diacritic post-processing of the word set returned by
the lexical database. `da` is `libscowl.deaccent`, an external collaborator. -/
def processDiacritics (da : String → String) (diacritic : String) (words : Finset String) :
    Finset String :=
  if diacritic = "strip" then words.image da
  else if diacritic = "both" then words ∪ words.image da
  else words

/-- Line 375: `sorted(words)` — the word set as a ≤-sorted duplicate-free list. -/
def sortedWords (words : Finset String) : List String :=
  words.sort (· ≤ ·)

/-- Bytes, as natural numbers (10 = LF, 13 = CR). -/
abbrev Bytes := List Nat

/-- `bytes.replace(b'\n', b'\r\n')` (lines 433 and 435): every LF becomes CR LF. -/
def crlfOf : Bytes → Bytes
  | [] => []
  | b :: rest => (if b = 10 then [13, 10] else [b]) ++ crlfOf rest

/-- CRLF → LF normalization: every CR immediately followed by LF becomes LF,
left to right. -/
def normalizeCRLF : Bytes → Bytes
  | [] => []
  | [b] => [b]
  | b :: c :: rest =>
    if b = 13 ∧ c = 10 then 10 :: normalizeCRLF rest
    else b :: normalizeCRLF (c :: rest)

/-- Line 413: the inline response text — header, a `---` separator line, the
words joined by LF, and a trailing LF. -/
def inlineBody (header : String) (ws : List String) : String :=
  header ++ "---\n" ++ pyJoin "\n" ws ++ "\n"

/-- Lines 417–426: the three members of the tar.gz archive, as
(entry name, decompressed bytes). `encC` encodes in the request charset,
`encU` in UTF-8 (used for the secondary README). -/
def tarMembers (encC encU : String → Bytes) (header : String) (ws : List String)
    (scowl : String) : List (String × Bytes) :=
  [("SCOWL-wl/README", encC header),
   ("SCOWL-wl/words.txt", encC (pyJoin "\n" ws ++ "\n")),
   ("SCOWL-wl/README_SCOWL.md", encU scowl)]

/-- Lines 430–435: the three members of the zip archive — same logical
content with CRLF line endings, entry names without the directory prefix. -/
def zipMembers (encC encU : String → Bytes) (header : String) (ws : List String)
    (scowl : String) : List (String × Bytes) :=
  [("README", crlfOf (encC header)),
   ("words.txt", encC (pyJoin "\r\n" ws ++ "\r\n")),
   ("README_SCOWL.md", crlfOf (encU scowl))]

/-- A response payload: plain bytes, or an archive given by its decompressed
members (the gzip/deflate container encodings are outside this model). -/
inductive Payload where
  | bytes (b : Bytes)
  | archive (members : List (String × Bytes))
  deriving DecidableEq, Repr

/-- A Flask `Response` as the claims see it: body, content type and extra
headers. -/
structure HttpResponse where
  body : Payload
  contentType : String
  headers : List (String × String)
  deriving DecidableEq, Repr

/-- Lines 412–415: the inline wordlist response. No extra headers are set. -/
def inlineResponse (encOf : String → String → Bytes) (charset header : String)
    (ws : List String) : HttpResponse :=
  { body := .bytes (encOf charset (inlineBody header ws)),
    contentType := "text/plain; charset=" ++ charset,
    headers := [] }

/-- Lines 421–429: the tar.gz wordlist response. -/
def targzResponse (encOf : String → String → Bytes) (charset header : String)
    (ws : List String) : HttpResponse :=
  { body := .archive (tarMembers (encOf charset) (encOf "UTF-8") header ws README_SCOWL),
    contentType := "application/octet-stream",
    headers := [("Content-Disposition", "attachment; filename=SCOWL-wl.tar.gz")] }

/-- Lines 430–438: the zip wordlist response. -/
def zipResponse (encOf : String → String → Bytes) (charset header : String)
    (ws : List String) : HttpResponse :=
  { body := .archive (zipMembers (encOf charset) (encOf "UTF-8") header ws README_SCOWL),
    contentType := "application/zip",
    headers := [("Content-Disposition", "attachment; filename=SCOWL-wl.zip")] }

/-- Lines 377–387: the hunspell package response. -/
def hunspellResponse (name : String) (zipBytes : Bytes) : HttpResponse :=
  { body := .bytes zipBytes,
    contentType := "application/zip",
    headers := [("Content-Disposition", "attachment; filename=hunspell-" ++ name ++ ".zip")] }

/-- Lines 389–397: the aspell package response. -/
def aspellResponse (tarBytes : Bytes) : HttpResponse :=
  { body := .bytes tarBytes,
    contentType := "application/octet-stream",
    headers := [("Content-Disposition", "attachment; filename=aspell6-en-custom.tar.bz2")] }

/-- An observable piece of external work performed while handling a request:
the word-set query against the lexical database (line 364–367), or
packaging work (archive assembly / a dictionary-builder subprocess). -/
inductive Ev where
  | dbQuery
  | packaging
  deriving DecidableEq, Repr

/-- The `/create` route, lines 301–438, with its external collaborators as
parameters: `renderForm` the HTML form renderer, `encOf charset text` the
text encoder, `g` the lexical-database query (`libscowl.getWords` plus the
`set(...)` around it), `da` `libscowl.deaccent`, and `hb`/`ab` the two
dictionary builders (`make_hunspell_dict` without its final file read /
`make_aspell_dict`), which fail with their diagnostic output. The second
component is the trace of external work performed, in order. -/
def create (renderForm : String → String) (encOf : String → String → Bytes)
    (g : Parms → Finset String) (da : String → String)
    (hb : String → String → List String → Except String Bytes)
    (ab : String → List String → Except String Bytes)
    (req : Request) : Except String HttpResponse × List Ev :=
  if req.download = none ∨ req.download = some "" then
    let defaults := req.defaults.getD "en_US"
    if PRESET_KEYS.contains defaults then
      (.ok { body := .bytes (encOf "UTF-8" (renderForm defaults)),
             contentType := "text/html; charset=UTF-8",
             headers := [] }, [])
    else (.error "Invalid defaults preset", [])
  else
    let download := req.download.getD ""
    if download = "wordlist" ∨ download = "hunspell" ∨ download = "aspell" then
      match resolveParms req with
      | .error e => (.error e, [])
      | .ok parms =>
        let words0 := g parms
        let words := processDiacritics da parms.diacritic words0
        let sorted_words := sortedWords words
        if download = "hunspell" then
          let name := dict_name parms.spelling
          match hb name (dump_parms parms "  ") sorted_words with
          | .error err =>
            (.error ("Hunspell dictionary generation failed: " ++ err), [.dbQuery, .packaging])
          | .ok zipBytes => (.ok (hunspellResponse name zipBytes), [.dbQuery, .packaging])
        else if download = "aspell" then
          match ab (dump_parms parms "  ") sorted_words with
          | .error err =>
            (.error ("Aspell dictionary generation failed: " ++ err), [.dbQuery, .packaging])
          | .ok tarBytes => (.ok (aspellResponse tarBytes), [.dbQuery, .packaging])
        else
          match resolveEncoding req.encoding with
          | .error e => (.error e, [.dbQuery])
          | .ok encoding =>
            match resolveFormat req.format with
            | .error e => (.error e, [.dbQuery])
            | .ok fmt =>
              let charset := if encoding = "utf-8" then "UTF-8" else "ISO-8859-1"
              let header := build_header parms
              if fmt = "inline" then
                (.ok (inlineResponse encOf charset header sorted_words),
                 [.dbQuery, .packaging])
              else if fmt = "tar.gz" then
                (.ok (targzResponse encOf charset header sorted_words),
                 [.dbQuery, .packaging])
              else
                (.ok (zipResponse encOf charset header sorted_words),
                 [.dbQuery, .packaging])
    else (.error "Invalid download type", [])

/-- Python `sep.join` at the byte level (used to relate the encoded joins). -/
def joinBytes (sep : Bytes) : List Bytes → Bytes
  | [] => []
  | [w] => w
  | w :: rest => w ++ sep ++ joinBytes sep rest

/-- A concrete character-wise text encoding (each character as its code
point), used to instantiate the abstract encoder in witnesses. -/
def charEnc (s : String) : Bytes := s.data.map Char.toNat

/-- Concrete encoder fixture for witnesses: every charset encodes
character-wise. -/
def encOf0 : String → String → Bytes := fun _ s => charEnc s

/-- Concrete form-renderer fixture for witnesses. -/
def renderForm0 : String → String := fun _ => ""

/-- Concrete lexical-database fixture for witnesses: the empty word set. -/
def g0 : Parms → Finset String := fun _ => ∅

/-- Concrete accent-folding fixture for witnesses. -/
def da0 : String → String := id

/-- Concrete hunspell-builder fixture for witnesses. -/
def hb0 : String → String → List String → Except String Bytes := fun _ _ _ => .ok []

/-- Concrete aspell-builder fixture for witnesses. -/
def ab0 : String → List String → Except String Bytes := fun _ _ => .ok []

/-- A duplicate-free list whose members are exactly `r` is `[r]`. -/
theorem eq_singleton_of_nodup_mem (m : List String) (r : String)
    (hm : m.Nodup) (h : ∀ x, x ∈ m ↔ x = r) : m = [r] := by
  cases m with
  | nil => exact absurd ((h r).mpr rfl) (by simp)
  | cons a t =>
    have ha : a = r := (h a).mp (by simp)
    subst ha
    have ht : t = [] := by
      cases t with
      | nil => rfl
      | cons b t' =>
        have hb : b = a := (h b).mp (by simp)
        subst hb
        simp at hm
    rw [ht]

/-- C5: for every non-empty spelling set, `dict_name` normalizes GBs and GBz
to a single GB bucket and returns `en_<REGION>-custom` exactly when one
distinct region remains after normalization, else `en-custom`; with the
specified concrete values. -/
theorem dict_name_resolution :
    (∀ l r, l ≠ [] → (l.map normalizeSpelling).toFinset = {r} →
      dict_name l = "en_" ++ r ++ "-custom") ∧
    (∀ l, l ≠ [] → (l.map normalizeSpelling).toFinset.card ≠ 1 →
      dict_name l = "en-custom") ∧
    dict_name ["US"] = "en_US-custom" ∧
    dict_name ["GBs", "GBz"] = "en_GB-custom" ∧
    dict_name ["US", "CA"] = "en-custom" := by
  refine ⟨?_, ?_, by decide, by decide, by decide⟩
  · intro l r _ hset
    have hmem : ∀ x, x ∈ (l.map normalizeSpelling).dedup ↔ x = r := by
      intro x
      rw [List.mem_dedup, ← List.mem_toFinset, hset, Finset.mem_singleton]
    have hsing := eq_singleton_of_nodup_mem _ r (List.nodup_dedup _) hmem
    unfold dict_name
    rw [hsing]
    simp
  · intro l _ hcard
    have hlen : (l.map normalizeSpelling).dedup.length ≠ 1 := by
      rwa [← List.card_toFinset]
    unfold dict_name
    simp only [if_neg hlen]

/-- C5 witness: the single-region branch at a concrete input. -/
theorem dict_name_resolution_witness : dict_name ["CA"] = "en_CA-custom" :=
  dict_name_resolution.1 ["CA"] "CA" (by decide) (by decide)
/-- C10: with `max_size` absent the resolved value is 60 and it passes
validation; any successfully resolved record from such a request carries
`max_size = 60`. -/
theorem max_size_defaults_to_60 (req : Request) (p : Parms) :
    resolveMaxSize none = Except.ok 60 ∧
    (req.max_size = none → resolveParms req = Except.ok p → p.max_size = 60) := by
  refine ⟨rfl, ?_⟩
  intro h1 h2
  have hms : resolveMaxSize none = Except.ok 60 := rfl
  unfold resolveParms at h2
  rw [h1, hms] at h2
  simp only [bind, Except.bind] at h2
  cases hsp : resolveSpelling req.spelling <;> rw [hsp] at h2
  case error => simp at h2
  case ok sp =>
  cases hvl : resolveVariantLevel req.variant_level req.max_variant <;> rw [hvl] at h2
  case error => simp at h2
  case ok vl =>
  cases hdc : resolveDiacritic req.diacritic <;> rw [hdc] at h2
  case error => simp at h2
  case ok dc =>
  cases hspc : resolveSpecial req.special <;> rw [hspc] at h2
  case error => simp at h2
  case ok spc =>
  simp only [pure, Except.pure, Except.ok.injEq] at h2
  rw [← h2]
/-- C2: `variant_level` resolution order — a supplied `variant_level` is
parsed and range-checked 0–9 with no fallback to `max_variant` (the result
never depends on `max_variant` when `variant_level` is present); otherwise a
supplied legacy `max_variant` must be one of {0,1,2,3} and maps through
{0→1, 1→4, 2→6, 3→8}, agreeing with supplying the mapped value directly;
otherwise the default is 1. -/
theorem variant_level_resolution :
    (∀ v mv mv', resolveVariantLevel (some v) mv = resolveVariantLevel (some v) mv') ∧
    (∀ v n mv, parseInt v = some n → 0 ≤ n → n ≤ 9 →
      resolveVariantLevel (some v) mv = Except.ok n) ∧
    (∀ v n mv, parseInt v = some n → (n < 0 ∨ 9 < n) →
      resolveVariantLevel (some v) mv = Except.error "variant_level must be 0-9") ∧
    (∀ v mv, parseInt v = none →
      resolveVariantLevel (some v) mv = Except.error "variant_level must be an integer") ∧
    (∀ s s', parseInt s = some 0 → parseInt s' = some 1 →
      resolveVariantLevel none (some s) = Except.ok 1 ∧
      resolveVariantLevel none (some s) = resolveVariantLevel (some s') none) ∧
    (∀ s s', parseInt s = some 1 → parseInt s' = some 4 →
      resolveVariantLevel none (some s) = Except.ok 4 ∧
      resolveVariantLevel none (some s) = resolveVariantLevel (some s') none) ∧
    (∀ s s', parseInt s = some 2 → parseInt s' = some 6 →
      resolveVariantLevel none (some s) = Except.ok 6 ∧
      resolveVariantLevel none (some s) = resolveVariantLevel (some s') none) ∧
    (∀ s s', parseInt s = some 3 → parseInt s' = some 8 →
      resolveVariantLevel none (some s) = Except.ok 8 ∧
      resolveVariantLevel none (some s) = resolveVariantLevel (some s') none) ∧
    (∀ s k, parseInt s = some k → k ≠ 0 → k ≠ 1 → k ≠ 2 → k ≠ 3 →
      resolveVariantLevel none (some s) = Except.error "max_variant must be 0-3") ∧
    resolveVariantLevel none none = Except.ok 1 := by
  refine ⟨?_, ?_, ?_, ?_, ?_, ?_, ?_, ?_, ?_, rfl⟩
  · intro v mv mv'
    simp only [resolveVariantLevel]
  · intro v n mv h hlo hhi
    simp only [resolveVariantLevel, h]
    rw [if_neg (by omega)]
  · intro v n mv h hrange
    simp only [resolveVariantLevel, h]
    rw [if_pos (by omega)]
  · intro v mv h
    simp only [resolveVariantLevel, h]
  · intro s s' h h'
    constructor
    · simp [resolveVariantLevel, h, LEGACY_VARIANT_MAP, List.lookup]
    · simp [resolveVariantLevel, h, h', LEGACY_VARIANT_MAP, List.lookup]
  · intro s s' h h'
    constructor
    · simp [resolveVariantLevel, h, LEGACY_VARIANT_MAP, List.lookup]
    · simp [resolveVariantLevel, h, h', LEGACY_VARIANT_MAP, List.lookup]
  · intro s s' h h'
    constructor
    · simp [resolveVariantLevel, h, LEGACY_VARIANT_MAP, List.lookup]
    · simp [resolveVariantLevel, h, h', LEGACY_VARIANT_MAP, List.lookup]
  · intro s s' h h'
    constructor
    · simp [resolveVariantLevel, h, LEGACY_VARIANT_MAP, List.lookup]
    · simp [resolveVariantLevel, h, h', LEGACY_VARIANT_MAP, List.lookup]
  · intro s k h h0 h1 h2 h3
    have e0 : (k == 0) = false := by simp [h0]
    have e1 : (k == 1) = false := by simp [h1]
    have e2 : (k == 2) = false := by simp [h2]
    have e3 : (k == 3) = false := by simp [h3]
    simp [resolveVariantLevel, h, LEGACY_VARIANT_MAP, List.lookup, e0, e1, e2, e3]
/-- C7: diacritic post-processing — `strip` yields exactly the accent-folded
image of the word set, `both` the union of the set with its folded image (so
each word and its folded form are present), `keep` leaves the set unchanged. -/
theorem diacritic_postprocessing (da : String → String) (w : Finset String) :
    processDiacritics da "strip" w = w.image da ∧
    processDiacritics da "both" w = w ∪ w.image da ∧
    (∀ x ∈ w, x ∈ processDiacritics da "both" w ∧ da x ∈ processDiacritics da "both" w) ∧
    processDiacritics da "keep" w = w := by
  have hboth : processDiacritics da "both" w = w ∪ w.image da := by
    simp [processDiacritics]
  refine ⟨rfl, hboth, ?_, by simp [processDiacritics]⟩
  intro x hx
  rw [hboth]
  exact ⟨Finset.mem_union_left _ hx,
         Finset.mem_union_right _ (Finset.mem_image_of_mem da hx)⟩

/-- C7 witness: in `both` mode the folded form of a concrete word is present. -/
theorem diacritic_postprocessing_witness :
    da0 "café" ∈ processDiacritics da0 "both" {"café"} :=
  ((diacritic_postprocessing da0 {"café"}).2.2.1 "café" (by decide)).2

/-- C9: the three logical members carry a `SCOWL-wl/` directory prefix in the
tar.gz archive and no prefix in the zip archive. -/
theorem archive_member_names (encC encU : String → Bytes) (header : String)
    (ws : List String) (scowl : String) :
    (tarMembers encC encU header ws scowl).map Prod.fst
      = ["SCOWL-wl/README", "SCOWL-wl/words.txt", "SCOWL-wl/README_SCOWL.md"] ∧
    (zipMembers encC encU header ws scowl).map Prod.fst
      = ["README", "words.txt", "README_SCOWL.md"] ∧
    (tarMembers encC encU header ws scowl).map Prod.fst
      = ((zipMembers encC encU header ws scowl).map Prod.fst).map
          (fun n => "SCOWL-wl/" ++ n) := by
  refine ⟨rfl, rfl, ?_⟩
  simp only [tarMembers, zipMembers, List.map]
  decide
theorem normalizeCRLF_crlf_cons (t : Bytes) :
    normalizeCRLF (13 :: 10 :: t) = 10 :: normalizeCRLF t := by
  simp [normalizeCRLF]

theorem normalizeCRLF_append_front (w t : Bytes) (hw : 13 ∉ w) :
    normalizeCRLF (w ++ t) = w ++ normalizeCRLF t := by
  induction w with
  | nil => rfl
  | cons x w ih =>
    have hx : x ≠ 13 := fun h => hw (h ▸ List.mem_cons_self x w)
    have hw' : 13 ∉ w := fun h => hw (List.mem_cons_of_mem x h)
    rw [List.cons_append]
    cases hwt : w ++ t with
    | nil =>
      rcases List.append_eq_nil.mp hwt with ⟨rfl, rfl⟩
      simp [normalizeCRLF]
    | cons c r =>
      rw [normalizeCRLF, if_neg (by tauto), ← hwt, ih hw', List.cons_append]

theorem normalizeCRLF_id (l : Bytes) (h : 13 ∉ l) : normalizeCRLF l = l := by
  have := normalizeCRLF_append_front l [] h
  simpa [normalizeCRLF] using this

theorem normalizeCRLF_sep (w t : Bytes) (hw : 13 ∉ w) :
    normalizeCRLF (w ++ 13 :: 10 :: t) = w ++ 10 :: normalizeCRLF t := by
  rw [normalizeCRLF_append_front w _ hw, normalizeCRLF_crlf_cons]

theorem normalizeCRLF_crlfOf (l : Bytes) (h : 13 ∉ l) :
    normalizeCRLF (crlfOf l) = l := by
  induction l with
  | nil => rfl
  | cons x l ih =>
    have hx : x ≠ 13 := fun he => h (he ▸ List.mem_cons_self x l)
    have h' : 13 ∉ l := fun he => h (List.mem_cons_of_mem x he)
    by_cases h10 : x = 10
    · subst h10
      rw [crlfOf, if_pos rfl]
      show normalizeCRLF (13 :: 10 :: crlfOf l) = 10 :: l
      rw [normalizeCRLF_crlf_cons, ih h']
    · rw [crlfOf, if_neg h10]
      show normalizeCRLF ([x] ++ crlfOf l) = x :: l
      rw [normalizeCRLF_append_front [x] _ (by simpa using Ne.symm hx), ih h']
      rfl

theorem normalizeCRLF_joinCRLF (ws : List Bytes) (h : ∀ w ∈ ws, 13 ∉ w) :
    normalizeCRLF (joinBytes [13, 10] ws ++ [13, 10]) = joinBytes [10] ws ++ [10] := by
  induction ws with
  | nil => simp [joinBytes, normalizeCRLF]
  | cons w rest ih =>
    have hw : 13 ∉ w := h w (List.mem_cons_self w rest)
    have hrest : ∀ w' ∈ rest, 13 ∉ w' := fun w' hw' => h w' (List.mem_cons_of_mem w hw')
    cases rest with
    | nil =>
      show normalizeCRLF (w ++ [13, 10]) = w ++ [10]
      have := normalizeCRLF_sep w [] hw
      simpa using this
    | cons w' rest' =>
      show normalizeCRLF ((w ++ [13, 10] ++ joinBytes [13, 10] (w' :: rest')) ++ [13, 10])
        = (w ++ [10] ++ joinBytes [10] (w' :: rest')) ++ [10]
      have hmid := ih hrest
      calc normalizeCRLF ((w ++ [13, 10] ++ joinBytes [13, 10] (w' :: rest')) ++ [13, 10])
          = normalizeCRLF (w ++ 13 :: 10 :: (joinBytes [13, 10] (w' :: rest') ++ [13, 10])) := by
            simp
        _ = w ++ 10 :: normalizeCRLF (joinBytes [13, 10] (w' :: rest') ++ [13, 10]) :=
            normalizeCRLF_sep w _ hw
        _ = w ++ 10 :: (joinBytes [10] (w' :: rest') ++ [10]) := by rw [hmid]
        _ = (w ++ [10] ++ joinBytes [10] (w' :: rest')) ++ [10] := by simp
theorem enc_empty (enc : String → Bytes)
    (hhom : ∀ s t, enc (s ++ t) = enc s ++ enc t) : enc "" = [] := by
  have he : ("" ++ "" : String) = "" := by decide
  have h2 := hhom "" ""
  rw [he] at h2
  have hlen := congrArg List.length h2
  rw [List.length_append] at hlen
  exact List.length_eq_zero.mp (by omega)

theorem enc_pyJoin (enc : String → Bytes)
    (hhom : ∀ s t, enc (s ++ t) = enc s ++ enc t) (sep : String) (l : List String) :
    enc (pyJoin sep l) = joinBytes (enc sep) (l.map enc) := by
  induction l with
  | nil => exact enc_empty enc hhom
  | cons w rest ih =>
    cases rest with
    | nil => rfl
    | cons w' rest' =>
      show enc (w ++ sep ++ pyJoin sep (w' :: rest'))
        = enc w ++ enc sep ++ joinBytes (enc sep) ((w' :: rest').map enc)
      rw [hhom, hhom, ih]

theorem not_mem_joinBytes (sep : Bytes) (hsep : 13 ∉ sep) (bs : List Bytes)
    (h : ∀ b ∈ bs, 13 ∉ b) : 13 ∉ joinBytes sep bs := by
  induction bs with
  | nil => simp [joinBytes]
  | cons w rest ih =>
    have hw : 13 ∉ w := h w (List.mem_cons_self w rest)
    have hrest : ∀ b ∈ rest, 13 ∉ b := fun b hb => h b (List.mem_cons_of_mem w hb)
    cases rest with
    | nil => exact hw
    | cons w' rest' =>
      show 13 ∉ w ++ sep ++ joinBytes sep (w' :: rest')
      simp only [List.mem_append, not_or]
      exact ⟨⟨hw, hsep⟩, ih hrest⟩

/-- C3: the zip members' decompressed content, CRLF-normalized, is exactly the
tar.gz members' content, which is itself CRLF-free — the two archives'
members agree byte-for-byte after EOL normalization. Hypotheses: the charset
encoder is a homomorphism sending `\n` to LF and `\r` to CR (true of both
UTF-8 and ISO-8859-1), and the encoded header, words and secondary README
contain no CR byte. -/
theorem archive_members_eol_equivalent (encC encU : String → Bytes) (header : String)
    (ws : List String) (scowl : String)
    (hhom : ∀ s t, encC (s ++ t) = encC s ++ encC t)
    (hlf : encC "\n" = [10]) (hcr : encC "\r" = [13])
    (hh : 13 ∉ encC header) (hw : ∀ w ∈ ws, 13 ∉ encC w) (hs : 13 ∉ encU scowl) :
    (zipMembers encC encU header ws scowl).map (fun m => normalizeCRLF m.2)
      = (tarMembers encC encU header ws scowl).map (fun m => normalizeCRLF m.2) ∧
    (tarMembers encC encU header ws scowl).map (fun m => normalizeCRLF m.2)
      = (tarMembers encC encU header ws scowl).map (fun m => m.2) := by
  have hcrlf : encC "\r\n" = [13, 10] := by
    have hsplit : ("\r\n" : String) = "\r" ++ "\n" := by decide
    rw [hsplit, hhom, hcr, hlf]
    rfl
  have hwmap : ∀ b ∈ ws.map encC, 13 ∉ b := by
    intro b hb
    rcases List.mem_map.mp hb with ⟨w, hwmem, rfl⟩
    exact hw w hwmem
  have htarWords : encC (pyJoin "\n" ws ++ "\n") = joinBytes [10] (ws.map encC) ++ [10] := by
    rw [hhom, enc_pyJoin encC hhom, hlf]
  have hzipWords : encC (pyJoin "\r\n" ws ++ "\r\n")
      = joinBytes [13, 10] (ws.map encC) ++ [13, 10] := by
    rw [hhom, enc_pyJoin encC hhom, hcrlf]
  have htarWordsNo13 : 13 ∉ encC (pyJoin "\n" ws ++ "\n") := by
    rw [htarWords]
    simp only [List.mem_append, not_or]
    exact ⟨not_mem_joinBytes [10] (by simp) (ws.map encC) hwmap, by simp⟩
  constructor
  · simp only [zipMembers, tarMembers, List.map]
    refine congrArg₂ _ ?_ (congrArg₂ _ ?_ (congrArg₂ _ ?_ rfl))
    · rw [normalizeCRLF_crlfOf _ hh, normalizeCRLF_id _ hh]
    · rw [hzipWords, normalizeCRLF_joinCRLF _ hwmap, normalizeCRLF_id _ htarWordsNo13,
        htarWords]
    · rw [normalizeCRLF_crlfOf _ hs, normalizeCRLF_id _ hs]
  · simp only [tarMembers, List.map]
    refine congrArg₂ _ ?_ (congrArg₂ _ ?_ (congrArg₂ _ ?_ rfl))
    · rw [normalizeCRLF_id _ hh]
    · rw [normalizeCRLF_id _ htarWordsNo13]
    · rw [normalizeCRLF_id _ hs]

/-- The witness encoder is a `++`-homomorphism. -/
theorem charEnc_append (s t : String) : charEnc (s ++ t) = charEnc s ++ charEnc t := by
  simp [charEnc, String.data_append]

/-- C3 witness: the member equivalence at a concrete header, word list and
secondary README under the character-wise encoder. -/
theorem archive_members_eol_equivalent_witness :
    (zipMembers charEnc charEnc "Head\n" ["apple", "bat"] "S\n").map
        (fun m => normalizeCRLF m.2)
      = (tarMembers charEnc charEnc "Head\n" ["apple", "bat"] "S\n").map
        (fun m => normalizeCRLF m.2) ∧
    (tarMembers charEnc charEnc "Head\n" ["apple", "bat"] "S\n").map
        (fun m => normalizeCRLF m.2)
      = (tarMembers charEnc charEnc "Head\n" ["apple", "bat"] "S\n").map (fun m => m.2) :=
  archive_members_eol_equivalent charEnc charEnc "Head\n" ["apple", "bat"] "S\n"
    charEnc_append (by decide) (by decide) (by decide) (by decide) (by decide)

theorem rstripAuxNL_cons_of_ne (x : Char) (hx : (x == '\n') = false) (l : List Char) :
    rstripAuxNL (x :: l) = x :: rstripAuxNL l := by
  unfold rstripAuxNL
  rw [List.reverse_cons]
  generalize l.reverse = m
  induction m with
  | nil => simp [List.dropWhile, hx]
  | cons y m' ih =>
    rw [List.cons_append, List.dropWhile]
    cases hy : y == '\n' with
    | true => simpa [List.dropWhile, hy] using ih
    | false => simp [List.dropWhile, hy]

theorem params_block_head (p : Parms) : ∃ t, (params_block p).data = 'C' :: t := by
  unfold params_block rstripNL
  have hdata : (headerIntro ++ dump_parms p "  ").data
      = 'C' :: ("ustom wordlist generated from https://app.aspell.net/create using SCOWL\nwith parameters:\n".data ++ (dump_parms p "  ").data) := by
    rw [String.data_append]
    rfl
  rw [hdata, rstripAuxNL_cons_of_ne 'C' (by decide)]
  exact ⟨_, rfl⟩

theorem ne_of_data_head {s t : String} (h : s.data.head? ≠ t.data.head?) : s ≠ t := by
  intro he
  exact h (by rw [he])

/-- C6: the provenance header includes the AU legal clause exactly when AU is
among the selected spellings, and the large-list (UKACD) clause exactly when
`max_size` exceeds 80. -/
theorem header_conditional_clauses (p : Parms) :
    (COPYRIGHT_AU ∈ build_header_parts p ↔ "AU" ∈ p.spelling) ∧
    (COPYRIGHT_UKACD ∈ build_header_parts p ↔ p.max_size > 80) := by
  have hpb_au : COPYRIGHT_AU ≠ params_block p := by
    obtain ⟨t, ht⟩ := params_block_head p
    apply ne_of_data_head
    rw [ht, List.head?_cons]
    decide
  have hpb_uk : COPYRIGHT_UKACD ≠ params_block p := by
    obtain ⟨t, ht⟩ := params_block_head p
    apply ne_of_data_head
    rw [ht, List.head?_cons]
    decide
  constructor
  · constructor
    · intro hmem
      unfold build_header_parts at hmem
      simp only [List.mem_append, List.mem_cons, List.mem_singleton] at hmem
      rcases hmem with ((h1 | h2 | h3 | h4 | h5) | hau) | huk
      · exact absurd h1 hpb_au
      · exact absurd h2 (by decide)
      · exact absurd h3 (by decide)
      · exact absurd h4 (by decide)
      · exact absurd h5 (by simp)
      · by_cases hc : "AU" ∈ p.spelling
        · exact hc
        · rw [if_neg hc] at hau
          simp at hau
      · by_cases hc : p.max_size > 80
        · rw [if_pos hc] at huk
          simp at huk
          exact absurd huk (by decide)
        · rw [if_neg hc] at huk
          simp at huk
    · intro hc
      unfold build_header_parts
      rw [if_pos hc]
      simp
  · constructor
    · intro hmem
      unfold build_header_parts at hmem
      simp only [List.mem_append, List.mem_cons, List.mem_singleton] at hmem
      rcases hmem with ((h1 | h2 | h3 | h4 | h5) | hau) | huk
      · exact absurd h1 hpb_uk
      · exact absurd h2 (by decide)
      · exact absurd h3 (by decide)
      · exact absurd h4 (by decide)
      · exact absurd h5 (by simp)
      · by_cases hc : "AU" ∈ p.spelling
        · rw [if_pos hc] at hau
          simp at hau
          exact absurd hau (by decide)
        · rw [if_neg hc] at hau
          simp at hau
      · by_cases hc : p.max_size > 80
        · exact hc
        · rw [if_neg hc] at huk
          simp at huk
    · intro hc
      unfold build_header_parts
      rw [if_pos hc]
      simp

/-- C4: the word sequence every output mode serializes is the one strictly
sorted (lexicographically: `<` on strings is lexicographic order on their
character lists) list `sortedWords` produced from the post-processed word
set, and all three modes — inline, tar.gz, zip — serialize exactly that
list, joined by their mode's line separator. -/
theorem wordlist_serialization_sorted (g : Parms → Finset String) (da : String → String)
    (p : Parms) (encC encU : String → Bytes) (header scowl : String) :
    (sortedWords (processDiacritics da p.diacritic (g p))).Sorted (· < ·) ∧
    (∀ s t : String, s < t ↔ List.Lex (· < ·) s.data t.data) ∧
    inlineBody header (sortedWords (processDiacritics da p.diacritic (g p)))
      = header ++ "---\n"
        ++ pyJoin "\n" (sortedWords (processDiacritics da p.diacritic (g p))) ++ "\n" ∧
    (tarMembers encC encU header (sortedWords (processDiacritics da p.diacritic (g p)))
        scowl).map Prod.snd
      = [encC header,
         encC (pyJoin "\n" (sortedWords (processDiacritics da p.diacritic (g p))) ++ "\n"),
         encU scowl] ∧
    (zipMembers encC encU header (sortedWords (processDiacritics da p.diacritic (g p)))
        scowl).map Prod.snd
      = [crlfOf (encC header),
         encC (pyJoin "\r\n" (sortedWords (processDiacritics da p.diacritic (g p)))
           ++ "\r\n"),
         crlfOf (encU scowl)] := by
  refine ⟨Finset.sort_sorted_lt _, ?_, rfl, rfl, rfl⟩
  intro s t
  exact String.lt_iff_toList_lt

/-- C8 (amended): the tar.gz, zip, hunspell and aspell responses each carry
the format-specific `Content-Disposition` attachment header; the inline
wordlist response carries no extra header at all. -/
theorem download_response_headers (encOf : String → String → Bytes)
    (charset header name : String) (ws : List String) (b : Bytes) :
    (targzResponse encOf charset header ws).headers
      = [("Content-Disposition", "attachment; filename=SCOWL-wl.tar.gz")] ∧
    (zipResponse encOf charset header ws).headers
      = [("Content-Disposition", "attachment; filename=SCOWL-wl.zip")] ∧
    (hunspellResponse name b).headers
      = [("Content-Disposition", "attachment; filename=hunspell-" ++ name ++ ".zip")] ∧
    (aspellResponse b).headers
      = [("Content-Disposition", "attachment; filename=aspell6-en-custom.tar.bz2")] ∧
    (inlineResponse encOf charset header ws).headers = [] :=
  ⟨rfl, rfl, rfl, rfl, rfl⟩

/-- C8 counterexample: a successful inline wordlist request (all parameters
valid, `format` defaulting to `inline`) returns a response whose header list
is empty — it carries no `Content-Disposition` attachment header. -/
theorem inline_response_no_disposition_cex :
    Except.map (fun r => r.headers)
      (create renderForm0 encOf0 g0 da0 hb0 ab0 { download := some "wordlist" }).1
      = Except.ok ([] : List (String × String)) := rfl

/-- C1 counterexample: a request whose only invalid supplied value is the
wordlist-mode `encoding` fails with the validation error, but only after the
word-set query against the lexical database has been performed — the trace
of external work is `[dbQuery]`, not empty. -/
theorem encoding_checked_after_query_cex :
    (create renderForm0 encOf0 g0 da0 hb0 ab0
        { download := some "wordlist", encoding := some "bogus" }).2 = [Ev.dbQuery] ∧
    (create renderForm0 encOf0 g0 da0 hb0 ab0
        { download := some "wordlist", encoding := some "bogus" }).1
      = Except.error "Invalid encoding" ∧
    [Ev.dbQuery] ≠ ([] : List Ev) :=
  ⟨rfl, rfl, by decide⟩

/-- C1 (amended): an invalid download type or any invalid shared parameter
(max_size, spelling, variant_level/max_variant, diacritic, special) fails
the request before any external work — the work trace is empty; an invalid
wordlist-mode `encoding` or `format` fails the request before any packaging
work, but after the word-set query (work trace exactly `[dbQuery]`). -/
theorem validation_failure_order (renderForm : String → String)
    (encOf : String → String → Bytes) (g : Parms → Finset String) (da : String → String)
    (hb : String → String → List String → Except String Bytes)
    (ab : String → List String → Except String Bytes) (req : Request) :
    (∀ d, req.download = some d → d ≠ "" → d ≠ "wordlist" → d ≠ "hunspell" → d ≠ "aspell" →
      create renderForm encOf g da hb ab req = (.error "Invalid download type", [])) ∧
    (∀ e, (req.download = some "wordlist" ∨ req.download = some "hunspell" ∨
           req.download = some "aspell") →
      resolveParms req = .error e →
      create renderForm encOf g da hb ab req = (.error e, [])) ∧
    (∀ p e, req.download = some "wordlist" → resolveParms req = .ok p →
      resolveEncoding req.encoding = .error e →
      create renderForm encOf g da hb ab req = (.error e, [.dbQuery])) ∧
    (∀ p enc e, req.download = some "wordlist" → resolveParms req = .ok p →
      resolveEncoding req.encoding = .ok enc → resolveFormat req.format = .error e →
      create renderForm encOf g da hb ab req = (.error e, [.dbQuery])) := by
  refine ⟨?_, ?_, ?_, ?_⟩
  · intro d hd h0 h1 h2 h3
    simp [create, hd, h0, h1, h2, h3]
  · intro e hvalid hres
    rcases hvalid with hd | hd | hd <;> simp [create, hd, hres]
  · intro p e hd hres henc
    simp [create, hd, hres, henc]
  · intro p enc e hd hres henc hfmt
    simp [create, hd, hres, henc, hfmt]

end Create
